import Mathlib

/-!
Shallow embedding of the Password Strength Analyzer (src/app.py).

The analyzer `analyze_password` is a pure function from a password string to
a score, an entropy estimate, a criteria record, a suggestion list and a
strength tier.  The generator is the inline snippet in `main`:
`chars = string.ascii_letters + string.digits + (string.punctuation if include_special else "")`
followed by `length` independent draws via `secrets.choice`.

Strings are modelled as `List Char`; Python ints as `ℤ`/`ℕ`; the float
entropy (`math.log2`) as a real number via `Real.logb 2`.
-/

namespace PasswordAnalyzer

/-! ### Character classes (ASCII, as in the source's regexes) -/

/-- `[A-Z]` from `re.search(r'[A-Z]', password)` (codes 65-90). -/
def isUpperAZ (c : Char) : Bool := 65 ≤ c.toNat && c.toNat ≤ 90

/-- `[a-z]` from `re.search(r'[a-z]', password)` (codes 97-122). -/
def isLowerAZ (c : Char) : Bool := 97 ≤ c.toNat && c.toNat ≤ 122

/-- `\d` from `re.search(r'\d', password)` (ASCII digits, codes 48-57). -/
def isDigit09 (c : Char) : Bool := 48 ≤ c.toNat && c.toNat ≤ 57

/-- The 22 character codes of the analyzer's special-character regex class,
in source order: `! @ # $ % ^ & * ( ) , . ? " : ` then the two braces,
`| < > [ ]`. -/
def specialCodes : List Nat :=
  [33, 64, 35, 36, 37, 94, 38, 42, 40, 41, 44, 46, 63, 34, 58,
   123, 125, 124, 60, 62, 91, 93]

/-- The analyzer's fixed special-character set. -/
def specialChars : List Char := specialCodes.map Char.ofNat

/-- Membership in the analyzer's special set. -/
def isSpecial (c : Char) : Bool := specialChars.contains c

/-- `str.lower` restricted to ASCII (the only characters the claims use). -/
def lowerChar (c : Char) : Char :=
  if isUpperAZ c then Char.ofNat (c.toNat + 32) else c

/-- Lowercase form of a password, `password.lower()`. -/
def lowerList (p : List Char) : List Char := p.map lowerChar

/-- Python's substring test `pat in text`. -/
def containsSub (text pat : List Char) : Bool :=
  (List.range (text.length + 1)).any fun i => (text.drop i).take pat.length == pat

/-! ### Criteria (lines 80-86 of src/app.py) -/

structure Criteria where
  length : Bool
  uppercase : Bool
  lowercase : Bool
  digits : Bool
  special : Bool
deriving Repr, DecidableEq

/-- The five criteria of `analyze_password`. -/
def criteriaOf (p : List Char) : Criteria where
  length := decide (p.length ≥ 12)
  uppercase := p.any isUpperAZ
  lowercase := p.any isLowerAZ
  digits := p.any isDigit09
  special := p.any isSpecial

/-! ### Entropy (lines 88-97) -/

/-- Character pool size: +26 uppercase, +26 lowercase, +10 digits, +32 special,
for each criterion that holds. -/
def charPool (p : List Char) : ℕ :=
  (if (criteriaOf p).uppercase then 26 else 0) +
  (if (criteriaOf p).lowercase then 26 else 0) +
  (if (criteriaOf p).digits then 10 else 0) +
  (if (criteriaOf p).special then 32 else 0)

/-- `entropy = len(password) * math.log2(char_pool)` when `char_pool > 0`,
else the initial value `0`. -/
noncomputable def entropyOf (p : List Char) : ℝ :=
  if charPool p > 0 then (p.length : ℝ) * Real.logb 2 (charPool p) else 0

/-! ### Score (lines 99-115) -/

/-- The raw additive score of lines 100-104: length bonus `min(len*2, 30)`
plus the four class bonuses 15/15/20/20. -/
def additiveScore (p : List Char) : ℤ :=
  min ((p.length : ℤ) * 2) 30 +
  (if (criteriaOf p).uppercase then 15 else 0) +
  (if (criteriaOf p).lowercase then 15 else 0) +
  (if (criteriaOf p).digits then 20 else 0) +
  (if (criteriaOf p).special then 20 else 0)

/-- `common_patterns = ['password', '1234', 'qwerty', 'admin']`. -/
def commonPatterns : List (List Char) :=
  [['p','a','s','s','w','o','r','d'],
   ['1','2','3','4'],
   ['q','w','e','r','t','y'],
   ['a','d','m','i','n']]

/-- `any(pattern in password.lower() for pattern in common_patterns)`. -/
def hasCommonPattern (p : List Char) : Bool :=
  commonPatterns.any fun pat => containsSub (lowerList p) pat

/-- Score after the common-pattern penalty of lines 107-110. -/
def scoreAfterPattern (p : List Char) : ℤ :=
  if hasCommonPattern p then max 10 (additiveScore p - 40) else additiveScore p

/-- `len(set(password))`. -/
def distinctCount (p : List Char) : ℕ := p.dedup.length

/-- The repetition condition `len(set(password)) < len(password) / 2`
(Python real division; `2 * distinct < len` is the same comparison,
proved equivalent in the theorem for claim C7). -/
def repFires (p : List Char) : Bool := decide (2 * distinctCount p < p.length)

/-- Score after both penalties (line 115 applies `max(20, score - 20)`
on top of the possibly pattern-penalized score). -/
def finalScore (p : List Char) : ℤ :=
  if repFires p then max 20 (scoreAfterPattern p - 20) else scoreAfterPattern p

/-! ### Strength tier (lines 117-125) -/

inductive Strength where
  | Weak
  | Moderate
  | Strong
  | Excellent
deriving Repr, DecidableEq

open Classical in
/-- The tier if-chain of lines 118-125, a function of score and entropy only. -/
noncomputable def strengthOf (score : ℤ) (entropy : ℝ) : Strength :=
  if score < 40 ∨ entropy < 30 then .Weak
  else if score < 70 ∨ entropy < 50 then .Moderate
  else if score < 90 ∨ entropy < 70 then .Strong
  else .Excellent

/-- Order of tiers, for stating monotonicity. -/
def rank : Strength → ℕ
  | .Weak => 0
  | .Moderate => 1
  | .Strong => 2
  | .Excellent => 3

/-! ### Suggestions (appended in source order: lines 110, 114, 128-132) -/

def patternMsg : String := "Avoid common passwords or predictable patterns"
def repMsg : String := "Reduce character repetition"
def lengthMsg : String := "Use 12+ characters for better security"
def upperMsg : String := "Add uppercase letters (A-Z)"
def lowerMsg : String := "Add lowercase letters (a-z)"
def digitsMsg : String := "Include numbers (0-9)"
def specialMsg : String := "Add special characters (!@#$%^&*)"

/-- The suggestion list, appends in the exact execution order of the source:
pattern penalty (line 110), repetition penalty (line 114), then the five
missing-criterion messages (lines 128-132). -/
def suggestionsOf (p : List Char) : List String :=
  let s1 : List String := if hasCommonPattern p then [patternMsg] else []
  let s2 := if repFires p then s1 ++ [repMsg] else s1
  let s3 := if !(criteriaOf p).length then s2 ++ [lengthMsg] else s2
  let s4 := if !(criteriaOf p).uppercase then s3 ++ [upperMsg] else s3
  let s5 := if !(criteriaOf p).lowercase then s4 ++ [lowerMsg] else s4
  let s6 := if !(criteriaOf p).digits then s5 ++ [digitsMsg] else s5
  if !(criteriaOf p).special then s6 ++ [specialMsg] else s6

/-- `analyze_password` (lines 76-134): the full returned tuple. -/
noncomputable def analyze_password (p : List Char) :
    ℤ × ℝ × Criteria × List String × Strength :=
  (finalScore p, entropyOf p, criteriaOf p, suggestionsOf p,
   strengthOf (finalScore p) (entropyOf p))

/-! ### Generator (lines 177-178) -/

/-- `string.ascii_lowercase`. -/
def asciiLower : List Char := (List.range 26).map fun i => Char.ofNat (97 + i)

/-- `string.ascii_uppercase`. -/
def asciiUpper : List Char := (List.range 26).map fun i => Char.ofNat (65 + i)

/-- `string.ascii_letters` (lowercase then uppercase). -/
def asciiLetters : List Char := asciiLower ++ asciiUpper

/-- `string.digits`. -/
def digitChars : List Char := (List.range 10).map fun i => Char.ofNat (48 + i)

/-- Codes of `string.punctuation`: ASCII 33-47, 58-64, 91-96, 123-126. -/
def isPunctCode (n : ℕ) : Bool :=
  (33 ≤ n && n ≤ 47) || (58 ≤ n && n ≤ 64) ||
  (91 ≤ n && n ≤ 96) || (123 ≤ n && n ≤ 126)

/-- `string.punctuation`, the 32 visible ASCII punctuation characters. -/
def punctuationChars : List Char :=
  ((List.range 127).filter isPunctCode).map Char.ofNat

/-- `chars = string.ascii_letters + string.digits + (string.punctuation if include_special else "")`. -/
def genPool (includeSpecial : Bool) : List Char :=
  asciiLetters ++ digitChars ++ (if includeSpecial then punctuationChars else [])

/-- `secrets.choice(pool)`, modelled by an arbitrary draw index reduced
modulo the pool size (every pool element is reachable, and nothing else). -/
def choiceFrom (pool : List Char) (k : ℕ) : Char :=
  pool.getD (k % pool.length) 'a'

/-- `''.join(secrets.choice(chars) for _ in range(length))`.  `draws` supplies
the random indices; `range(length)` is empty for `length ≤ 0`
(`Int.toNat` of a non-positive integer is 0), exactly as in Python. -/
def generate (length : ℤ) (includeSpecial : Bool) (draws : ℕ → ℕ) : List Char :=
  (List.range length.toNat).map fun i => choiceFrom (genPool includeSpecial) (draws i)

/-! ### Concrete inputs used in the spec's scenarios -/

/-- The spec's scenario password `Tr0ub4dor&3XQ` (13 characters). -/
def trPassword : List Char := ['T','r','0','u','b','4','d','o','r','&','3','X','Q']

/-- The spec's scenario password `password`. -/
def pwPassword : List Char := ['p','a','s','s','w','o','r','d']

/-- The spec's scenario password of 12 identical lowercase letters. -/
def repeatedA : List Char := List.replicate 12 'a'

/-- The ten `string.punctuation` characters that the analyzer's special set
does not contain: apostrophe, `+`, `-`, `/`, `;`, `=`, backslash, underscore,
backquote, tilde. -/
def diffChars : List Char := [39, 43, 45, 47, 59, 61, 92, 95, 96, 126].map Char.ofNat

/-! ### Basic facts used by several proofs -/

/-- `Char.ofNat` of a small code decodes back to the same code. -/
theorem toNat_ofNat_of_lt {n : ℕ} (h : n < 55296) : (Char.ofNat n).toNat = n := by
  have hv : n.isValidChar := Or.inl h
  rw [Char.ofNat, dif_pos hv]
  rfl

theorem additiveScore_nonneg (p : List Char) : 0 ≤ additiveScore p := by
  unfold additiveScore
  have h : (0 : ℤ) ≤ min ((p.length : ℤ) * 2) 30 := by
    apply le_min <;> positivity
  split_ifs <;> omega

theorem additiveScore_le_100 (p : List Char) : additiveScore p ≤ 100 := by
  unfold additiveScore
  have h : min ((p.length : ℤ) * 2) 30 ≤ 30 := min_le_right _ _
  split_ifs <;> omega

/-- Claim C1: for every input string, `analyze_password` returns a score with
`0 ≤ score ≤ 100` and a non-negative entropy. -/
theorem C1_score_entropy_bounds (p : List Char) :
    0 ≤ finalScore p ∧ finalScore p ≤ 100 ∧ 0 ≤ entropyOf p := by
  have h0 := additiveScore_nonneg p
  have h100 := additiveScore_le_100 p
  have hsp0 : 0 ≤ scoreAfterPattern p := by
    unfold scoreAfterPattern; split_ifs <;> omega
  have hsp100 : scoreAfterPattern p ≤ 100 := by
    unfold scoreAfterPattern; split_ifs <;> omega
  refine ⟨?_, ?_, ?_⟩
  · unfold finalScore; split_ifs <;> omega
  · unfold finalScore; split_ifs <;> omega
  · unfold entropyOf
    split_ifs with h
    · have h1 : (1 : ℝ) ≤ (charPool p : ℝ) := by exact_mod_cast h
      have := Real.logb_nonneg (by norm_num : (1:ℝ) < 2) h1
      positivity
    · exact le_refl 0

/-- Claim C2 (counterexample): `generate(0, b)` and `generate(-1, b)` do not
fail: the generator snippet has no validation and no error path, and for a
non-positive length `range(length)` is empty, so the empty string is returned
normally. -/
theorem C2_counterexample :
    generate 0 true (fun _ => 0) = [] ∧ generate (-1) true (fun _ => 0) = [] ∧
    generate 0 false (fun _ => 0) = [] ∧ generate (-1) false (fun _ => 0) = [] :=
  ⟨rfl, rfl, rfl, rfl⟩

/-- Claim C2 (amended): the generator performs no input validation: for every
`length ≤ 0` it returns the empty string rather than failing with
`InvalidInput`; no error condition exists in the code (the app's slider keeps
`length` in `[8, 32]`). -/
theorem C2_generate_nonpositive_empty (len : ℤ) (h : len ≤ 0)
    (sp : Bool) (draws : ℕ → ℕ) : generate len sp draws = [] := by
  unfold generate
  rw [Int.toNat_of_nonpos h]
  rfl

/-- Witness for C2: at `length = -1` the hypothesis holds and the output is
empty. -/
theorem C2_generate_nonpositive_empty_witness :
    (-1 : ℤ) ≤ 0 ∧ generate (-1) true (fun _ => 0) = [] :=
  ⟨by norm_num, C2_generate_nonpositive_empty (-1) (by norm_num) true (fun _ => 0)⟩

theorem genPool_length_pos (sp : Bool) : 0 < (genPool sp).length := by
  cases sp <;> decide

theorem choiceFrom_mem (pool : List Char) (hp : 0 < pool.length) (k : ℕ) :
    choiceFrom pool k ∈ pool := by
  unfold choiceFrom
  rw [List.getD_eq_getElem _ _ (Nat.mod_lt _ hp)]
  exact List.getElem_mem _

theorem genPool_false_no_punct : ∀ c ∈ genPool false, c ∉ punctuationChars := by
  decide

/-- Claim C3: for every `length > 0` and every `include_special`, the
generated password has exactly `length` characters, each drawn from the pool
for that setting, and with `include_special = false` no output character is a
punctuation character. -/
theorem C3_generate_length_pool (len : ℤ) (h : 0 < len) (sp : Bool)
    (draws : ℕ → ℕ) :
    ((generate len sp draws).length : ℤ) = len ∧
    (∀ c ∈ generate len sp draws, c ∈ genPool sp) ∧
    (sp = false → ∀ c ∈ generate len sp draws, c ∉ punctuationChars) := by
  refine ⟨?_, ?_, ?_⟩
  · unfold generate
    rw [List.length_map, List.length_range]
    exact Int.toNat_of_nonneg h.le
  · intro c hc
    unfold generate at hc
    obtain ⟨i, _, rfl⟩ := List.mem_map.mp hc
    exact choiceFrom_mem _ (genPool_length_pos sp) _
  · rintro rfl c hc
    obtain ⟨i, _, rfl⟩ := List.mem_map.mp hc
    exact genPool_false_no_punct _ (choiceFrom_mem _ (genPool_length_pos false) _)

/-- Witness for C3: a concrete length-4 request without specials. -/
theorem C3_generate_length_pool_witness :
    (0 : ℤ) < 4 ∧
    (((generate 4 false (fun _ => 0)).length : ℤ) = 4 ∧
     (∀ c ∈ generate 4 false (fun _ => 0), c ∈ genPool false) ∧
     (false = false → ∀ c ∈ generate 4 false (fun _ => 0),
        c ∉ punctuationChars)) :=
  ⟨by norm_num, C3_generate_length_pool 4 (by norm_num) false (fun _ => 0)⟩

theorem containsSub_length {text pat : List Char} (h : containsSub text pat = true) :
    pat.length ≤ text.length := by
  unfold containsSub at h
  rw [List.any_eq_true] at h
  obtain ⟨i, _, heq⟩ := h
  have he : (text.drop i).take pat.length = pat := eq_of_beq heq
  have := congrArg List.length he
  rw [List.length_take, List.length_drop] at this
  omega

theorem containsSub_mem {text pat : List Char} (h : containsSub text pat = true) :
    ∀ c ∈ pat, c ∈ text := by
  unfold containsSub at h
  rw [List.any_eq_true] at h
  obtain ⟨i, _, heq⟩ := h
  have he : (text.drop i).take pat.length = pat := eq_of_beq heq
  intro c hc
  rw [← he] at hc
  exact List.mem_of_mem_drop (List.mem_of_mem_take hc)

theorem lowerChar_digit {c : Char} (h : lowerChar c = '1') :
    isDigit09 c = true := by
  unfold lowerChar at h
  split_ifs at h with hu
  · exfalso
    simp only [isUpperAZ, Bool.and_eq_true, decide_eq_true_eq] at hu
    have h1 := congrArg Char.toNat h
    rw [toNat_ofNat_of_lt (by omega)] at h1
    have h2 : ('1' : Char).toNat = 49 := by decide
    omega
  · rw [h]
    decide

/-- If the common-pattern penalty fires, the raw additive score is at least
10, so `max(10, score - 40)` never exceeds the pre-penalty score. -/
theorem pattern_additive_ge_10 (p : List Char) (h : hasCommonPattern p = true) :
    10 ≤ additiveScore p := by
  have hb : ∀ q : List Char, 5 ≤ q.length → 10 ≤ additiveScore q := by
    intro q hq
    unfold additiveScore
    have : (10 : ℤ) ≤ min ((q.length : ℤ) * 2) 30 := by omega
    split_ifs <;> omega
  unfold hasCommonPattern at h
  rw [List.any_eq_true] at h
  obtain ⟨pat, hpat, hsub⟩ := h
  have hlen : pat.length ≤ p.length := by
    have := containsSub_length hsub
    rwa [lowerList, List.length_map] at this
  simp only [commonPatterns, List.mem_cons, List.not_mem_nil, or_false] at hpat
  rcases hpat with rfl | rfl | rfl | rfl
  · norm_num at hlen
    exact hb p (by omega)
  · -- pattern '1234': the digit bonus applies
    have h1 : ('1' : Char) ∈ lowerList p := containsSub_mem hsub '1' (by decide)
    obtain ⟨c, hcp, hc⟩ := List.mem_map.mp h1
    have hd : (criteriaOf p).digits = true := by
      simp only [criteriaOf, List.any_eq_true]
      exact ⟨c, hcp, lowerChar_digit hc⟩
    unfold additiveScore
    rw [hd]
    rcases min_cases ((p.length : ℤ) * 2) 30 with ⟨hm, _⟩ | ⟨hm, _⟩ <;>
      rw [hm] <;> split_ifs <;> first | omega | simp_all
  · norm_num at hlen
    exact hb p (by omega)
  · norm_num at hlen
    exact hb p (by omega)

/-- Claim C4 (counterexample): for the input `---` the additive score is 6
but the repetition floor lifts the final score to 20, so the final score
exceeds the additive score and the repetition penalty raised the score it was
applied to. -/
theorem C4_counterexample :
    additiveScore ['-','-','-'] = 6 ∧ scoreAfterPattern ['-','-','-'] = 6 ∧
    finalScore ['-','-','-'] = 20 ∧
    ¬ finalScore ['-','-','-'] ≤ additiveScore ['-','-','-'] := by
  refine ⟨by decide, by decide, by decide, by decide⟩

/-- Claim C4 (amended): the common-pattern step never increases the score,
and the final score never exceeds `max 20` of the additive score; the
repetition floor of 20 can however lift the final score above a sub-20
pre-penalty value. -/
theorem C4_final_score_bound (p : List Char) :
    scoreAfterPattern p ≤ additiveScore p ∧
    finalScore p ≤ max 20 (additiveScore p) := by
  have h1 : scoreAfterPattern p ≤ additiveScore p := by
    unfold scoreAfterPattern
    split_ifs with h
    · have := pattern_additive_ge_10 p h
      omega
    · exact le_refl _
  refine ⟨h1, ?_⟩
  unfold finalScore
  split_ifs <;> omega

/-- Claim C5 (counterexample): the additive score of `Tr0ub4dor&3XQ` is 96,
not 100: the length bonus is `min(13 * 2, 30) = 26`, not 30. -/
theorem C5_counterexample :
    additiveScore trPassword ≠ 100 ∧ additiveScore trPassword = 96 := by
  refine ⟨by decide, by decide⟩

theorem six_le_logb_two_94 : (6 : ℝ) ≤ Real.logb 2 94 := by
  have h64 : Real.logb 2 64 = 6 := by
    rw [show (64 : ℝ) = 2 ^ (6 : ℕ) by norm_num, Real.logb_pow,
      Real.logb_self_eq_one (by norm_num)]
    norm_num
  calc (6 : ℝ) = Real.logb 2 64 := h64.symm
    _ ≤ Real.logb 2 94 :=
        Real.logb_le_logb_of_le (by norm_num) (by norm_num) (by norm_num)

/-- Claim C5 (amended): for `Tr0ub4dor&3XQ` all five criteria hold, the pool
is 94, the entropy is `13 * log2 94` (at least 78 bits), no penalty fires,
the score is `26 + 15 + 15 + 20 + 20 = 96`, and the tier is Excellent. -/
theorem C5_troubador_analysis :
    criteriaOf trPassword = ⟨true, true, true, true, true⟩ ∧
    charPool trPassword = 94 ∧
    entropyOf trPassword = 13 * Real.logb 2 94 ∧
    hasCommonPattern trPassword = false ∧
    repFires trPassword = false ∧
    finalScore trPassword = 96 ∧
    strengthOf (finalScore trPassword) (entropyOf trPassword) = .Excellent := by
  have hcp : charPool trPassword = 94 := by decide
  have hlen : trPassword.length = 13 := by decide
  have hent : entropyOf trPassword = 13 * Real.logb 2 94 := by
    rw [entropyOf, hcp, hlen]
    norm_num
  have hfin : finalScore trPassword = 96 := by decide
  have h70 : (70 : ℝ) ≤ entropyOf trPassword := by
    rw [hent]
    nlinarith [six_le_logb_two_94]
  refine ⟨by decide, hcp, hent, by decide, by decide, hfin, ?_⟩
  rw [hfin, strengthOf]
  rw [if_neg, if_neg, if_neg]
  · push_neg
    exact ⟨by norm_num, by linarith⟩
  · push_neg
    exact ⟨by norm_num, by linarith⟩
  · push_neg
    exact ⟨by norm_num, by linarith⟩

/-- Closed form of the suggestion list: the sequential appends of the source
amount to this fixed-order concatenation. -/
theorem suggestionsOf_eq (p : List Char) :
    suggestionsOf p =
      (if hasCommonPattern p then [patternMsg] else []) ++
      (if repFires p then [repMsg] else []) ++
      (if (criteriaOf p).length then [] else [lengthMsg]) ++
      (if (criteriaOf p).uppercase then [] else [upperMsg]) ++
      (if (criteriaOf p).lowercase then [] else [lowerMsg]) ++
      (if (criteriaOf p).digits then [] else [digitsMsg]) ++
      (if (criteriaOf p).special then [] else [specialMsg]) := by
  unfold suggestionsOf
  cases hasCommonPattern p <;> cases repFires p <;>
    cases (criteriaOf p).length <;> cases (criteriaOf p).uppercase <;>
    cases (criteriaOf p).lowercase <;> cases (criteriaOf p).digits <;>
    cases (criteriaOf p).special <;> simp

theorem patternMsg_mem_iff (p : List Char) :
    patternMsg ∈ suggestionsOf p ↔ hasCommonPattern p = true := by
  have h1 : patternMsg ≠ repMsg := by decide
  have h2 : patternMsg ≠ lengthMsg := by decide
  have h3 : patternMsg ≠ upperMsg := by decide
  have h4 : patternMsg ≠ lowerMsg := by decide
  have h5 : patternMsg ≠ digitsMsg := by decide
  have h6 : patternMsg ≠ specialMsg := by decide
  rw [suggestionsOf_eq]
  split_ifs <;> simp_all

theorem repMsg_mem_iff (p : List Char) :
    repMsg ∈ suggestionsOf p ↔ repFires p = true := by
  have h1 : repMsg ≠ patternMsg := by decide
  have h2 : repMsg ≠ lengthMsg := by decide
  have h3 : repMsg ≠ upperMsg := by decide
  have h4 : repMsg ≠ lowerMsg := by decide
  have h5 : repMsg ≠ digitsMsg := by decide
  have h6 : repMsg ≠ specialMsg := by decide
  rw [suggestionsOf_eq]
  split_ifs <;> simp_all

/-- Claim C6: the common-pattern step fires exactly on passwords whose
lowercase form contains a denylist substring; when it fires it sets the score
to `max(10, additive - 40)` and adds the pattern suggestion, and otherwise it
leaves the additive score unchanged and adds no pattern suggestion. -/
theorem C6_common_pattern_step (p : List Char) :
    (hasCommonPattern p =
      (commonPatterns.any fun pat => containsSub (lowerList p) pat)) ∧
    (hasCommonPattern p = true →
      scoreAfterPattern p = max 10 (additiveScore p - 40) ∧
      patternMsg ∈ suggestionsOf p) ∧
    (hasCommonPattern p = false →
      scoreAfterPattern p = additiveScore p ∧
      patternMsg ∉ suggestionsOf p) := by
  refine ⟨rfl, fun h => ⟨?_, ?_⟩, fun h => ⟨?_, ?_⟩⟩
  · rw [scoreAfterPattern, if_pos h]
  · exact (patternMsg_mem_iff p).mpr h
  · rw [scoreAfterPattern, if_neg (by simp [h])]
  · intro hm
    rw [patternMsg_mem_iff p, h] at hm
    exact Bool.false_ne_true hm

/-- Witness for C6: `password` fires the penalty, `Tr0ub4dor&3XQ` does not. -/
theorem C6_common_pattern_step_witness :
    (hasCommonPattern pwPassword = true ∧
     (scoreAfterPattern pwPassword = max 10 (additiveScore pwPassword - 40) ∧
      patternMsg ∈ suggestionsOf pwPassword)) ∧
    (hasCommonPattern trPassword = false ∧
     (scoreAfterPattern trPassword = additiveScore trPassword ∧
      patternMsg ∉ suggestionsOf trPassword)) :=
  ⟨⟨by decide, (C6_common_pattern_step pwPassword).2.1 (by decide)⟩,
   ⟨by decide, (C6_common_pattern_step trPassword).2.2 (by decide)⟩⟩

/-- Claim C7: the repetition penalty fires exactly when the distinct-character
count is below half the length under real division (a condition of the string
alone, independent of the pattern step); when it fires the final score is
`max(20, s - 20)` applied to the post-pattern score `s` and the repetition
suggestion is added, and otherwise score and suggestions are unchanged. -/
theorem C7_repetition_step (p : List Char) :
    (repFires p = true ↔
      (distinctCount p : ℝ) < (p.length : ℝ) / 2) ∧
    (repFires p = true →
      finalScore p = max 20 (scoreAfterPattern p - 20) ∧
      repMsg ∈ suggestionsOf p) ∧
    (repFires p = false →
      finalScore p = scoreAfterPattern p ∧
      repMsg ∉ suggestionsOf p) := by
  refine ⟨?_, fun h => ⟨?_, ?_⟩, fun h => ⟨?_, ?_⟩⟩
  · rw [repFires, decide_eq_true_eq, lt_div_iff₀ (by norm_num : (0:ℝ) < 2)]
    have hc : ((distinctCount p : ℝ) * 2 < (p.length : ℝ)) ↔
        distinctCount p * 2 < p.length := by
      exact_mod_cast Iff.rfl
    rw [hc]
    omega
  · rw [finalScore, if_pos h]
  · exact (repMsg_mem_iff p).mpr h
  · rw [finalScore, if_neg (by simp [h])]
  · intro hm
    rw [repMsg_mem_iff p, h] at hm
    exact Bool.false_ne_true hm

/-- Witness for C7: twelve repeated letters fire the penalty, `password`
does not. -/
theorem C7_repetition_step_witness :
    (repFires repeatedA = true ∧
     (finalScore repeatedA = max 20 (scoreAfterPattern repeatedA - 20) ∧
      repMsg ∈ suggestionsOf repeatedA)) ∧
    (repFires pwPassword = false ∧
     (finalScore pwPassword = scoreAfterPattern pwPassword ∧
      repMsg ∉ suggestionsOf pwPassword)) :=
  ⟨⟨by decide, (C7_repetition_step repeatedA).2.1 (by decide)⟩,
   ⟨by decide, (C7_repetition_step pwPassword).2.2 (by decide)⟩⟩

theorem rank_strengthOf (s : ℤ) (e : ℝ) :
    rank (strengthOf s e) =
      (if 40 ≤ s ∧ 30 ≤ e then 1 else 0) +
      (if 70 ≤ s ∧ 50 ≤ e then 1 else 0) +
      (if 90 ≤ s ∧ 70 ≤ e then 1 else 0) := by
  unfold strengthOf
  by_cases h1 : s < 40 ∨ e < 30
  · rw [if_pos h1]
    have ha : ¬(40 ≤ s ∧ 30 ≤ e) := fun hc =>
      h1.elim (fun h => absurd hc.1 (by omega)) (fun h => absurd hc.2 (by linarith))
    have hb : ¬(70 ≤ s ∧ 50 ≤ e) := fun hc =>
      h1.elim (fun h => absurd hc.1 (by omega)) (fun h => absurd hc.2 (by linarith))
    have hd : ¬(90 ≤ s ∧ 70 ≤ e) := fun hc =>
      h1.elim (fun h => absurd hc.1 (by omega)) (fun h => absurd hc.2 (by linarith))
    rw [if_neg ha, if_neg hb, if_neg hd]
    rfl
  · rw [if_neg h1]
    push_neg at h1
    by_cases h2 : s < 70 ∨ e < 50
    · rw [if_pos h2]
      have hb : ¬(70 ≤ s ∧ 50 ≤ e) := fun hc =>
        h2.elim (fun h => absurd hc.1 (by omega)) (fun h => absurd hc.2 (by linarith))
      have hd : ¬(90 ≤ s ∧ 70 ≤ e) := fun hc =>
        h2.elim (fun h => absurd hc.1 (by omega)) (fun h => absurd hc.2 (by linarith))
      rw [if_pos h1, if_neg hb, if_neg hd]
      rfl
    · rw [if_neg h2]
      push_neg at h2
      by_cases h3 : s < 90 ∨ e < 70
      · rw [if_pos h3]
        have hd : ¬(90 ≤ s ∧ 70 ≤ e) := fun hc =>
          h3.elim (fun h => absurd hc.1 (by omega)) (fun h => absurd hc.2 (by linarith))
        rw [if_pos h1, if_pos h2, if_neg hd]
        rfl
      · rw [if_neg h3]
        push_neg at h3
        rw [if_pos h1, if_pos h2, if_pos h3]
        rfl

theorem ite_one_zero_mono {c1 c2 : Prop} [Decidable c1] [Decidable c2]
    (h : c1 → c2) : (if c1 then (1:ℕ) else 0) ≤ if c2 then 1 else 0 := by
  split_ifs with a b <;> simp_all

/-- Claim C8: the strength tier is a function of score and entropy alone,
monotone non-decreasing in each argument with the other fixed, with the
boundaries 40/70/90 on score and 30/50/70 on entropy combined by OR (each
tier requires both its score and its entropy threshold). -/
theorem C8_tier_monotone :
    (∀ (s1 s2 : ℤ) (e : ℝ), s1 ≤ s2 →
      rank (strengthOf s1 e) ≤ rank (strengthOf s2 e)) ∧
    (∀ (s : ℤ) (e1 e2 : ℝ), e1 ≤ e2 →
      rank (strengthOf s e1) ≤ rank (strengthOf s e2)) ∧
    (∀ (s : ℤ) (e : ℝ),
      (strengthOf s e = .Weak ↔ s < 40 ∨ e < 30) ∧
      (strengthOf s e = .Moderate ↔ (40 ≤ s ∧ 30 ≤ e) ∧ (s < 70 ∨ e < 50)) ∧
      (strengthOf s e = .Strong ↔ (70 ≤ s ∧ 50 ≤ e) ∧ (s < 90 ∨ e < 70)) ∧
      (strengthOf s e = .Excellent ↔ 90 ≤ s ∧ 70 ≤ e)) := by
  refine ⟨?_, ?_, ?_⟩
  · intro s1 s2 e h
    rw [rank_strengthOf, rank_strengthOf]
    refine add_le_add (add_le_add ?_ ?_) ?_ <;>
      exact ite_one_zero_mono fun hc => ⟨le_trans hc.1 h, hc.2⟩
  · intro s e1 e2 h
    rw [rank_strengthOf, rank_strengthOf]
    refine add_le_add (add_le_add ?_ ?_) ?_ <;>
      exact ite_one_zero_mono fun hc => ⟨hc.1, le_trans hc.2 h⟩
  · intro s e
    unfold strengthOf
    by_cases h1 : s < 40 ∨ e < 30
    · rw [if_pos h1]
      have ha : ¬(40 ≤ s ∧ 30 ≤ e) := fun hc =>
        h1.elim (fun h => absurd hc.1 (by omega)) (fun h => absurd hc.2 (by linarith))
      refine ⟨iff_of_true rfl h1, iff_of_false (by decide) (fun hx => ha hx.1),
        iff_of_false (by decide) ?_, iff_of_false (by decide) ?_⟩
      · exact fun hx => ha ⟨le_trans (by norm_num) hx.1.1, le_trans (by norm_num) hx.1.2⟩
      · exact fun hx => ha ⟨le_trans (by norm_num) hx.1, le_trans (by norm_num) hx.2⟩
    · rw [if_neg h1]
      push_neg at h1
      by_cases h2 : s < 70 ∨ e < 50
      · rw [if_pos h2]
        have hb : ¬(70 ≤ s ∧ 50 ≤ e) := fun hc =>
          h2.elim (fun h => absurd hc.1 (by omega)) (fun h => absurd hc.2 (by linarith))
        refine ⟨iff_of_false (by decide) ?_, iff_of_true rfl ⟨h1, h2⟩,
          iff_of_false (by decide) (fun hx => hb hx.1), iff_of_false (by decide) ?_⟩
        · exact fun hx =>
            hx.elim (fun h => absurd h1.1 (by omega)) (fun h => absurd h1.2 (by linarith))
        · exact fun hx => hb ⟨le_trans (by norm_num) hx.1, le_trans (by norm_num) hx.2⟩
      · rw [if_neg h2]
        push_neg at h2
        by_cases h3 : s < 90 ∨ e < 70
        · rw [if_pos h3]
          refine ⟨iff_of_false (by decide) ?_, iff_of_false (by decide) ?_,
            iff_of_true rfl ⟨h2, h3⟩, iff_of_false (by decide) ?_⟩
          · exact fun hx =>
              hx.elim (fun h => absurd h1.1 (by omega)) (fun h => absurd h1.2 (by linarith))
          · exact fun hx =>
              hx.2.elim (fun h => absurd h2.1 (by omega)) (fun h => absurd h2.2 (by linarith))
          · exact fun hx =>
              h3.elim (fun h => absurd hx.1 (by omega)) (fun h => absurd hx.2 (by linarith))
        · rw [if_neg h3]
          push_neg at h3
          refine ⟨iff_of_false (by decide) ?_, iff_of_false (by decide) ?_,
            iff_of_false (by decide) ?_, iff_of_true rfl h3⟩
          · exact fun hx =>
              hx.elim (fun h => absurd h1.1 (by omega)) (fun h => absurd h1.2 (by linarith))
          · exact fun hx =>
              hx.2.elim (fun h => absurd h2.1 (by omega)) (fun h => absurd h2.2 (by linarith))
          · exact fun hx =>
              hx.2.elim (fun h => absurd h3.1 (by omega)) (fun h => absurd h3.2 (by linarith))

/-- Witness for C8: concrete instantiations of both monotonicity parts. -/
theorem C8_tier_monotone_witness :
    ((30 : ℤ) ≤ 95 ∧ rank (strengthOf 30 80) ≤ rank (strengthOf 95 80)) ∧
    ((20 : ℝ) ≤ 80 ∧ rank (strengthOf 95 20) ≤ rank (strengthOf 95 80)) :=
  ⟨⟨by norm_num, C8_tier_monotone.1 30 95 80 (by norm_num)⟩,
   ⟨by norm_num, C8_tier_monotone.2.1 95 20 80 (by norm_num)⟩⟩

/-- Claim C9: the suggestion list is exactly the fixed-order concatenation
(pattern message, repetition message, then one message per false criterion in
the order length, uppercase, lowercase, digits, special); hence it is empty
iff no penalty fired and all five criteria hold, and non-empty otherwise. -/
theorem C9_suggestions_order (p : List Char) :
    suggestionsOf p =
      (if hasCommonPattern p then [patternMsg] else []) ++
      (if repFires p then [repMsg] else []) ++
      (if (criteriaOf p).length then [] else [lengthMsg]) ++
      (if (criteriaOf p).uppercase then [] else [upperMsg]) ++
      (if (criteriaOf p).lowercase then [] else [lowerMsg]) ++
      (if (criteriaOf p).digits then [] else [digitsMsg]) ++
      (if (criteriaOf p).special then [] else [specialMsg]) ∧
    (suggestionsOf p = [] ↔
      hasCommonPattern p = false ∧ repFires p = false ∧
      (criteriaOf p).length = true ∧ (criteriaOf p).uppercase = true ∧
      (criteriaOf p).lowercase = true ∧ (criteriaOf p).digits = true ∧
      (criteriaOf p).special = true) := by
  refine ⟨suggestionsOf_eq p, ?_⟩
  rw [suggestionsOf_eq]
  cases hasCommonPattern p <;> cases repFires p <;>
    cases (criteriaOf p).length <;> cases (criteriaOf p).uppercase <;>
    cases (criteriaOf p).lowercase <;> cases (criteriaOf p).digits <;>
    cases (criteriaOf p).special <;> simp

/-- Claim C10: the generator pool with specials contains all 32 punctuation
characters while the analyzer's special set has only 22 members; the ten
remaining characters (for example `-`) are generable punctuation that the
analyzer does not count as special, and a password of letters, digits and
such a character (here `Abc123-`) fails the special criterion. -/
theorem C10_generator_analyzer_mismatch :
    punctuationChars.length = 32 ∧
    specialChars.length = 22 ∧
    punctuationChars.all (fun c => (genPool true).contains c) = true ∧
    diffChars.length = 10 ∧
    diffChars.all
      (fun c => punctuationChars.contains c && !(specialChars.contains c)) = true ∧
    ('-' ∈ genPool true) ∧
    (criteriaOf ['A','b','c','1','2','3','-']).special = false := by
  refine ⟨by decide, by decide, by decide, by decide, by decide, by decide,
    by decide⟩

end PasswordAnalyzer
